import Mathlib

/-!
# DriveManager upload engine: a shallow embedding

A verification development for the upload engine of the DriveManager
browser extension (`src/background.js`, `UploadManager` class, with the
options and popup pages as collaborators).  JavaScript objects are
modelled as Lean structures, the `activeUploads` `Map` as an
insertion-ordered association list, `browser.storage.local` as an
explicit record, and the asynchronous chunk loop as a function consuming
an explicit trace of network events.  JSON (de)serialization is external
library code and is abstracted as a pair of function parameters.
-/

namespace DriveManager

/-- The status strings stored in `upload.status` in `background.js`:
`'initializing'`, `'uploading'`, `'paused'`, `'interrupted'`,
`'completed'`, `'error'`.  Cancellation deletes the record instead of
storing a status. -/
inductive UploadStatus
  | initializing
  | uploading
  | paused
  | interrupted
  | completed
  | error
  deriving DecidableEq, Repr

/-- The file metadata snapshot taken in `startUpload` (`background.js`
lines 62-67): name, size, type, lastModified. -/
structure FileDescriptor where
  name : String
  size : Nat
  type : String
  lastModified : Nat
  deriving DecidableEq, Repr

/-- The upload record created by `startUpload` (`background.js` lines
60-77).  `progress` is a JavaScript number computed as
`(endByte / file.size) * 100`; it is modelled as a rational.  The
`chunks` array of the source is always empty and never read, so it is
omitted; `startTime`/`endTime` do not affect any claim's control flow
and are likewise omitted. -/
structure UploadRecord where
  id : String
  file : FileDescriptor
  status : UploadStatus
  progress : ℚ
  uploadedBytes : Nat
  chunkSize : Nat
  folderId : Option String
  sessionUri : Option String
  lastError : Option String
  deriving DecidableEq, Repr

/-- The in-memory `this.activeUploads` JavaScript `Map`, modelled as an
insertion-ordered list of records keyed by `id`. -/
abbrev Registry := List UploadRecord

/-- `this.activeUploads.get(id)`. -/
def mapGet (m : Registry) (id : String) : Option UploadRecord :=
  m.find? (fun u => u.id = id)

/-- `this.activeUploads.set(id, u)`: JavaScript `Map.set` replaces the
value of an existing key in place and appends a new key at the end. -/
def mapSet (m : Registry) (id : String) (u : UploadRecord) : Registry :=
  if m.any (fun v => v.id = id) then
    m.map (fun v => if v.id = id then u else v)
  else
    m ++ [u]

/-- `this.activeUploads.delete(id)`. -/
def mapDelete (m : Registry) (id : String) : Registry :=
  m.filter (fun v => ¬ v.id = id)

/-- `Array.from(this.activeUploads.values())`: the values in insertion
order. -/
def mapValues (m : Registry) : List UploadRecord := m

/-- The options page settings persisted by `saveSettings` in the options
script under the `'settings'` storage key: `defaultFolderId` and
`chunkSize`. -/
structure Settings where
  defaultFolderId : Option String
  chunkSize : Nat
  deriving DecidableEq, Repr

/-- `browser.storage.local`, restricted to the two keys this extension
uses: `'uploads'` (an opaque JSON blob written by `savePersistedState`)
and `'settings'` (written by the options page `saveSettings`). -/
structure Storage where
  uploads : Option String
  settings : Option Settings
  deriving DecidableEq, Repr

/-- `savePersistedState` (`background.js` lines 33-42): serializes
`Array.from(this.activeUploads.values())` and overwrites the `'uploads'`
key.  `ser` abstracts `JSON.stringify`. -/
def savePersistedState (ser : List UploadRecord → String) (m : Registry)
    (st : Storage) : Storage :=
  { st with uploads := some (ser (mapValues m)) }

/-- `loadPersistedState` (`background.js` lines 18-30): reads the
`'uploads'` key; when absent the map is left empty; when `JSON.parse`
throws the error is caught and the map is left empty; otherwise each
parsed upload is `set` into the map keyed by its id.  `parse` abstracts
`JSON.parse` (`none` models a thrown `SyntaxError`). -/
def loadPersistedState (parse : String → Option (List UploadRecord))
    (st : Storage) : Registry :=
  match st.uploads with
  | none => []
  | some blob =>
    match parse blob with
    | none => []
    | some uploads => uploads.foldl (fun m u => mapSet m u.id u) []

/-- The status rewrite applied to each record by
`recoverInterruptedUploads` (`background.js` lines 46-52). -/
def recoverStatus (s : UploadStatus) : UploadStatus :=
  if s = .uploading ∨ s = .paused then .interrupted else s

/-- `recoverInterruptedUploads` (`background.js` lines 45-54): every
record whose status is `'uploading'` or `'paused'` is re-`set` with
status `'interrupted'`; then the snapshot is re-saved.  Returns the
updated registry and storage. -/
def recoverInterruptedUploads (ser : List UploadRecord → String)
    (m : Registry) (st : Storage) : Registry × Storage :=
  let m' : Registry := m.map (fun u => { u with status := recoverStatus u.status })
  (m', savePersistedState ser m' st)

/-- `pauseUpload` (`background.js` lines 239-249): only a record whose
status is `'uploading'` is transitioned to `'paused'` (and persisted);
anything else returns `false` with no change.  Returns
(result, registry, storage). -/
def pauseUpload (ser : List UploadRecord → String) (m : Registry)
    (st : Storage) (id : String) : Bool × Registry × Storage :=
  match mapGet m id with
  | some u =>
    if u.status = .uploading then
      let m' := mapSet m id { u with status := .paused }
      (true, m', savePersistedState ser m' st)
    else (false, m, st)
  | none => (false, m, st)

/-- `resumeUpload` (`background.js` lines 252-266): only a record whose
status is `'paused'` or `'interrupted'` is transitioned to
`'uploading'` (persisted, and `processUpload` is re-entered with a
`null` file); anything else returns `false` with no change. -/
def resumeUpload (ser : List UploadRecord → String) (m : Registry)
    (st : Storage) (id : String) : Bool × Registry × Storage :=
  match mapGet m id with
  | some u =>
    if u.status = .paused ∨ u.status = .interrupted then
      let m' := mapSet m id { u with status := .uploading }
      (true, m', savePersistedState ser m' st)
    else (false, m, st)
  | none => (false, m, st)

/-- `cancelUpload` (`background.js` lines 269-293): a present id is
always cancelled: when `sessionUri` is set, exactly one best-effort
`DELETE` of the session is attempted (its failure is caught and only
logged), then the record is deleted and the snapshot persisted.  An
unknown id returns `false` and changes nothing.  The `Nat` component
counts the session-delete requests attempted. -/
def cancelUpload (ser : List UploadRecord → String) (m : Registry)
    (st : Storage) (id : String) : Bool × Registry × Storage × Nat :=
  match mapGet m id with
  | some u =>
    let attempts := if u.sessionUri.isSome then 1 else 0
    let m' := mapDelete m id
    (true, m', savePersistedState ser m' st, attempts)
  | none => (false, m, st, 0)

/-- The record literal built by `startUpload` (`background.js` lines
60-77): status `'initializing'`, zero progress, 5 MiB chunk size, no
session, no error. -/
def startUploadRecord (uploadId : String) (file : FileDescriptor)
    (folderId : Option String) : UploadRecord :=
  { id := uploadId
    file := file
    status := .initializing
    progress := 0
    uploadedBytes := 0
    chunkSize := 5 * 1024 * 1024
    folderId := folderId
    sessionUri := none
    lastError := none }

/-- `startUpload` (`background.js` lines 57-86): creates the record,
`set`s it into the map, persists, and returns the id.  The upload id is
generated from the clock and `Math.random` (`generateUploadId`), modelled
as an explicit argument.  Nothing here reads the `'settings'` storage
key. -/
def startUpload (ser : List UploadRecord → String) (m : Registry)
    (st : Storage) (uploadId : String) (file : FileDescriptor)
    (folderId : Option String) : String × Registry × Storage :=
  let upload := startUploadRecord uploadId file folderId
  let m' := mapSet m uploadId upload
  (uploadId, m', savePersistedState ser m' st)

/-! ## The chunk transfer engine (`uploadChunks` / `uploadChunk`) -/

/-- The `Content-Range` header built by `uploadChunk` (`background.js`
line 215): `bytes startByte-(endByte-1)/total`. -/
def chunkContentRange (startByte endByte total : Nat) : String :=
  "bytes " ++ toString startByte ++ "-" ++ toString (endByte - 1) ++ "/"
    ++ toString total

/-- One `PUT` request issued by `uploadChunk` (`background.js` lines
217-225): the session URI, the `Content-Range` header, and the byte
range [rangeStart, rangeEnd) of the body slice. -/
structure ChunkRequest where
  sessionUri : String
  contentRange : String
  rangeStart : Nat
  rangeEnd : Nat
  deriving DecidableEq, Repr

/-- The request `uploadChunk` sends for range [startByte, endByte) of a
file of `total` bytes. -/
def mkChunkRequest (sessionUri : String) (startByte endByte total : Nat) :
    ChunkRequest :=
  { sessionUri := sessionUri
    contentRange := chunkContentRange startByte endByte total
    rangeStart := startByte
    rangeEnd := endByte }

/-- The response handling of `uploadChunk` (`background.js` lines
227-235): status 308 returns normally ("incomplete, continue"), status
200 or 201 returns normally ("upload completed"), and every other
status throws `Upload failed with status: N`. -/
def uploadChunkResult (status : Nat) : Except String Unit :=
  if status = 308 then Except.ok ()
  else if status = 200 ∨ status = 201 then Except.ok ()
  else Except.error ("Upload failed with status: " ++ toString status)

/-- `error.message.includes('pause')` — the substring test used by the
catch clause of `uploadChunks` (`background.js` line 192). -/
def includesPause (msg : String) : Bool :=
  2 ≤ (msg.splitOn "pause").length

/-- What the environment does at one iteration of the `while` loop of
`uploadChunks`: the chunk `fetch` resolves with a status code, the
`fetch` rejects with an error message, or `pauseUpload` runs at the
suspension point between chunks and the loop condition
`upload.status === 'uploading'` sees `'paused'`. -/
inductive ChunkEvent
  | response (code : Nat)
  | netError (msg : String)
  | pauseSignal
  deriving DecidableEq, Repr

/-- Observable outcome of a run of the `uploadChunks` loop. -/
structure ChunkLoopResult where
  /-- `upload.uploadedBytes` after each completed loop iteration. -/
  ubTrace : List Nat
  /-- every chunk request issued, in order (retries included). -/
  sent : List ChunkRequest
  /-- the byte ranges whose request was acknowledged (status 308, 200
  or 201), in order. -/
  acked : List (Nat × Nat)
  /-- `upload.uploadedBytes` when the loop exits (or when the event
  trace ends). -/
  finalUb : Nat
  /-- `upload.status` when the loop exits: `'paused'` when a pause was
  observed, otherwise still `'uploading'` (completion is decided
  afterwards by `processUpload` from `uploadedBytes >= file.size`). -/
  finalStatus : UploadStatus
  deriving DecidableEq, Repr

/-- The `while` loop of `uploadChunks` (`background.js` lines 171-205),
driven by an explicit event trace.  State per iteration: `startByte`
and `upload.uploadedBytes` move together (both set to `endByte` on
success, both unchanged on a caught error), so a single `ub` suffices.
On success `endByte = min(startByte + chunkSize, file.size)` is
acknowledged; on an error whose message contains `'pause'` the status
becomes `'paused'` and the loop breaks; on any other error the loop
waits 2000 ms and retries the same range.  The thrown message
`Upload failed with status: N` never contains `'pause'`, so a rejected
status always takes the retry branch.  The record's `progress` field
(a derived percentage) does not influence control flow and is not
tracked here.  An exhausted trace models an upload still in flight. -/
def runChunkLoop (sessionUri : String) (size chunkSize : Nat) :
    Nat → List ChunkEvent → ChunkLoopResult
  | ub, [] =>
    { ubTrace := [], sent := [], acked := [],
      finalUb := ub, finalStatus := .uploading }
  | ub, e :: es =>
    if ub < size then
      match e with
      | .pauseSignal =>
        { ubTrace := [], sent := [], acked := [],
          finalUb := ub, finalStatus := .paused }
      | .netError msg =>
        let endByte := min (ub + chunkSize) size
        let req := mkChunkRequest sessionUri ub endByte size
        if includesPause msg then
          { ubTrace := [ub], sent := [req], acked := [],
            finalUb := ub, finalStatus := .paused }
        else
          let r := runChunkLoop sessionUri size chunkSize ub es
          { r with ubTrace := ub :: r.ubTrace, sent := req :: r.sent }
      | .response code =>
        let endByte := min (ub + chunkSize) size
        let req := mkChunkRequest sessionUri ub endByte size
        match uploadChunkResult code with
        | Except.ok _ =>
          let r := runChunkLoop sessionUri size chunkSize endByte es
          { r with ubTrace := endByte :: r.ubTrace, sent := req :: r.sent,
                   acked := (ub, endByte) :: r.acked }
        | Except.error _ =>
          let r := runChunkLoop sessionUri size chunkSize ub es
          { r with ubTrace := ub :: r.ubTrace, sent := req :: r.sent }
    else
      { ubTrace := [], sent := [], acked := [],
        finalUb := ub, finalStatus := .uploading }

/-! Unfolding equations for `runChunkLoop`, one per loop situation. -/

/-- Exhausted trace: the loop is still pending. -/
theorem runChunkLoop_nil (s : String) (z c ub : Nat) :
    runChunkLoop s z c ub [] =
      { ubTrace := [], sent := [], acked := [],
        finalUb := ub, finalStatus := .uploading } := rfl

/-- `startByte >= file.size`: the loop exits at once. -/
theorem runChunkLoop_done (s : String) (z c ub : Nat) (e : ChunkEvent)
    (es : List ChunkEvent) (h : ¬ ub < z) :
    runChunkLoop s z c ub (e :: es) =
      { ubTrace := [], sent := [], acked := [],
        finalUb := ub, finalStatus := .uploading } := by
  cases e <;> simp [runChunkLoop, h]

/-- A pause observed by the loop condition. -/
theorem runChunkLoop_pause (s : String) (z c ub : Nat)
    (es : List ChunkEvent) (h : ub < z) :
    runChunkLoop s z c ub (ChunkEvent.pauseSignal :: es) =
      { ubTrace := [], sent := [], acked := [],
        finalUb := ub, finalStatus := .paused } := by
  simp [runChunkLoop, h]

/-- A rejected `fetch` whose message contains `'pause'`: the catch sets
`'paused'` and breaks. -/
theorem runChunkLoop_netError_break (s : String) (z c ub : Nat)
    (msg : String) (es : List ChunkEvent) (h : ub < z)
    (hp : includesPause msg = true) :
    runChunkLoop s z c ub (ChunkEvent.netError msg :: es) =
      { ubTrace := [ub],
        sent := [mkChunkRequest s ub (min (ub + c) z) z], acked := [],
        finalUb := ub, finalStatus := .paused } := by
  simp [runChunkLoop, h, hp]

/-- A rejected `fetch` without `'pause'` in its message: wait 2000 ms
and retry the same byte range. -/
theorem runChunkLoop_netError_retry (s : String) (z c ub : Nat)
    (msg : String) (es : List ChunkEvent) (h : ub < z)
    (hp : includesPause msg = false) :
    runChunkLoop s z c ub (ChunkEvent.netError msg :: es) =
      { runChunkLoop s z c ub es with
        ubTrace := ub :: (runChunkLoop s z c ub es).ubTrace,
        sent := mkChunkRequest s ub (min (ub + c) z) z
          :: (runChunkLoop s z c ub es).sent } := by
  simp [runChunkLoop, h, hp]

/-- An acknowledged chunk (status 308, 200 or 201): advance to
`endByte`. -/
theorem runChunkLoop_response_ok (s : String) (z c ub code : Nat)
    (es : List ChunkEvent) (h : ub < z)
    (hok : uploadChunkResult code = Except.ok ()) :
    runChunkLoop s z c ub (ChunkEvent.response code :: es) =
      { runChunkLoop s z c (min (ub + c) z) es with
        ubTrace := min (ub + c) z
          :: (runChunkLoop s z c (min (ub + c) z) es).ubTrace,
        sent := mkChunkRequest s ub (min (ub + c) z) z
          :: (runChunkLoop s z c (min (ub + c) z) es).sent,
        acked := (ub, min (ub + c) z)
          :: (runChunkLoop s z c (min (ub + c) z) es).acked } := by
  simp [runChunkLoop, h, hok]

/-- A rejected status: the thrown message never contains `'pause'`, so
the loop retries the same byte range. -/
theorem runChunkLoop_response_error (s : String) (z c ub code : Nat)
    (msg : String) (es : List ChunkEvent) (h : ub < z)
    (herr : uploadChunkResult code = Except.error msg) :
    runChunkLoop s z c ub (ChunkEvent.response code :: es) =
      { runChunkLoop s z c ub es with
        ubTrace := ub :: (runChunkLoop s z c ub es).ubTrace,
        sent := mkChunkRequest s ub (min (ub + c) z) z
          :: (runChunkLoop s z c ub es).sent } := by
  simp [runChunkLoop, h, herr]

/-- The delay before a failed chunk is retried (`background.js`
line 202: `setTimeout(resolve, 2000)`), in milliseconds. -/
def chunkRetryDelayMs : Nat := 2000

/-- The sequence of byte ranges [start, end) the loop walks through on
the success path: from `start`, steps of `chunkSize` clipped at `size`.
The guard `0 < chunkSize` is required for termination; every record the
engine runs has `chunkSize = 5 MiB`. -/
def chunkRanges (chunkSize start size : Nat) : List (Nat × Nat) :=
  if _h : start < size ∧ 0 < chunkSize then
    (start, min (start + chunkSize) size)
      :: chunkRanges chunkSize (min (start + chunkSize) size) size
  else []
termination_by size - start
decreasing_by
  simp_wf
  omega

/-! ## Concrete fixtures (used by witnesses and counterexamples) -/

/-- A trivial stand-in for `JSON.stringify`. -/
def serNil : List UploadRecord → String := fun _ => "[]"

/-- A stand-in for `JSON.parse` that always throws. -/
def parseNone : String → Option (List UploadRecord) := fun _ => none

/-- Fresh `browser.storage.local`. -/
def emptyStorage : Storage := { uploads := none, settings := none }

/-- A 12 MiB file (the spec's worked scenario). -/
def sampleFile : FileDescriptor :=
  { name := "a.bin", size := 12 * 1024 * 1024,
    type := "application/octet-stream", lastModified := 0 }

/-- A record mid-transfer. -/
def sampleUploading : UploadRecord :=
  { id := "u1", file := sampleFile, status := .uploading, progress := 0,
    uploadedBytes := 0, chunkSize := 5 * 1024 * 1024, folderId := none,
    sessionUri := some "sess-1", lastError := none }

/-- An interrupted record. -/
def sampleInterrupted : UploadRecord :=
  { sampleUploading with id := "u2", status := .interrupted }

/-- A paused record with one acknowledged chunk. -/
def samplePaused : UploadRecord :=
  { sampleUploading with
    id := "u3", status := .paused, uploadedBytes := 5 * 1024 * 1024 }

/-! ## Registry map lemmas -/

/-- `Map.set` on an existing key: the in-place replacement is what a
later `find?` sees. -/
theorem find_replace_of_any (m : List UploadRecord) (u : UploadRecord)
    (hmem : m.any (fun v => v.id = u.id)) :
    (m.map (fun v => if v.id = u.id then u else v)).find?
      (fun v => v.id = u.id) = some u := by
  induction m with
  | nil => simp at hmem
  | cons v vs ih =>
    by_cases hv : v.id = u.id
    · simp [List.find?, hv]
    · have hmem' : vs.any (fun v => v.id = u.id) := by
        simp only [List.any_cons, Bool.or_eq_true, decide_eq_true_eq] at hmem
        rcases hmem with h | h
        · exact absurd h hv
        · simpa using h
      simp [List.find?, hv, ih hmem']

/-- `Map.set` on a fresh key: the appended record is what a later
`find?` sees. -/
theorem find_append_of_not_any (m : List UploadRecord) (u : UploadRecord)
    (hmem : ¬ m.any (fun v => v.id = u.id) = true) :
    (m ++ [u]).find? (fun v => v.id = u.id) = some u := by
  induction m with
  | nil => simp [List.find?]
  | cons v vs ih =>
    simp only [List.any_cons, Bool.or_eq_true, decide_eq_true_eq,
      not_or] at hmem
    simp only [List.cons_append, List.find?]
    have : (decide (v.id = u.id)) = false := by
      simpa using hmem.1
    rw [this]
    exact ih (by simpa using hmem.2)

/-- Looking up a key just `set` finds the record that was written. -/
theorem mapGet_mapSet_self (m : Registry) (u : UploadRecord) :
    mapGet (mapSet m u.id u) u.id = some u := by
  unfold mapGet mapSet
  by_cases hmem : m.any (fun v => v.id = u.id)
  · simp only [hmem, if_true]
    exact find_replace_of_any m u hmem
  · simp only [hmem, if_false]
    exact find_append_of_not_any m u hmem

/-- Deleting a key removes it from every later lookup. -/
theorem mapGet_mapDelete_self (m : Registry) (id : String) :
    mapGet (mapDelete m id) id = none := by
  unfold mapGet mapDelete
  induction m with
  | nil => rfl
  | cons v vs ih =>
    by_cases hv : v.id = id
    · simp only [mapDelete, List.filter, hv, decide_True, Bool.not_true]
      exact ih
    · simp only [mapDelete, List.filter, hv, decide_False, Bool.not_false,
        mapGet, List.find?, not_false_iff, decide_True, if_true]
      exact ih

/-- C7: `pauseUpload(id)` returns `true` and transitions the record to
`Paused` if and only if a record with that id exists and its status is
`Uploading`; for an unknown id or any other status (including
`Completed` and a cancelled, hence absent, record) it returns `false`
and neither the registry nor the stored snapshot changes. -/
theorem C7_pause_only_from_uploading (ser : List UploadRecord → String)
    (m : Registry) (st : Storage) (id : String) :
    ((pauseUpload ser m st id).1 = true ↔
      ∃ u, mapGet m id = some u ∧ u.status = .uploading) ∧
    (∀ u, mapGet m id = some u → u.status = .uploading →
      (pauseUpload ser m st id).2.1 =
        mapSet m id { u with status := .paused }) ∧
    ((pauseUpload ser m st id).1 = false →
      (pauseUpload ser m st id).2.1 = m ∧
      (pauseUpload ser m st id).2.2 = st) := by
  unfold pauseUpload
  cases h : mapGet m id with
  | none => simp
  | some u =>
    by_cases hs : u.status = .uploading
    · refine ⟨by simp only [hs, if_true]; exact ⟨fun _ => ⟨u, rfl, hs⟩, fun _ => trivial⟩, ?_, by simp [hs]⟩
      intro v hv _
      obtain rfl : u = v := by simpa using hv
      simp [hs]
    · refine ⟨?_, ?_, by simp [hs]⟩
      · simp only [hs, if_false]
        constructor
        · intro hfalse
          exact absurd hfalse (by simp)
        · rintro ⟨v, hv, hvs⟩
          obtain rfl : u = v := by simpa using hv
          exact absurd hvs hs
      · intro v hv hvs
        obtain rfl : u = v := by simpa using hv
        exact absurd hvs hs

/-- Witness for C7 at a concrete registry: pausing the uploading record
succeeds. -/
theorem C7_witness :
    (pauseUpload serNil [sampleUploading] emptyStorage "u1").1 = true :=
  (C7_pause_only_from_uploading serNil [sampleUploading] emptyStorage
    "u1").1.mpr ⟨sampleUploading, by decide, rfl⟩

/-- C8: loading persisted state never fails fatally: a missing
`'uploads'` snapshot and a snapshot whose deserialization throws both
yield an empty record set. -/
theorem C8_load_missing_or_corrupt_is_empty
    (parse : String → Option (List UploadRecord)) (st : Storage) :
    (st.uploads = none → loadPersistedState parse st = []) ∧
    (∀ blob, st.uploads = some blob → parse blob = none →
      loadPersistedState parse st = []) := by
  constructor
  · intro h
    simp [loadPersistedState, h]
  · intro blob h hp
    simp [loadPersistedState, h, hp]

/-- Witness for C8: a corrupt blob and a missing snapshot both load as
empty. -/
theorem C8_witness :
    loadPersistedState parseNone { uploads := some "corrupt", settings := none } = []
      ∧ loadPersistedState parseNone emptyStorage = [] :=
  ⟨(C8_load_missing_or_corrupt_is_empty parseNone _).2 "corrupt" rfl rfl,
   (C8_load_missing_or_corrupt_is_empty parseNone _).1 rfl⟩

/-- C10: every record created by `startUpload` has `chunkSize` exactly
`5 * 1024 * 1024` bytes, whatever the file, folder, prior registry and
prior storage (in particular whatever chunk size the options page saved
under the `'settings'` key — `startUpload` never reads it, and leaves
it untouched). -/
theorem C10_chunkSize_always_5MiB (ser : List UploadRecord → String)
    (m : Registry) (st : Storage) (uploadId : String)
    (file : FileDescriptor) (folderId : Option String) :
    (mapGet (startUpload ser m st uploadId file folderId).2.1 uploadId
        = some (startUploadRecord uploadId file folderId)) ∧
    (startUploadRecord uploadId file folderId).chunkSize = 5 * 1024 * 1024 ∧
    (startUpload ser m st uploadId file folderId).2.2.settings = st.settings := by
  refine ⟨?_, rfl, rfl⟩
  exact mapGet_mapSet_self m (startUploadRecord uploadId file folderId)

/-- C1: across every iteration of the `uploadChunks` chunk loop —
whatever mix of acknowledged chunks, transient failures and pauses the
environment produces — `uploadedBytes` is monotonically non-decreasing
and never exceeds the file's size (as a natural number it is also never
negative), provided it starts within bounds. -/
theorem C1_uploadedBytes_monotone_bounded (sessionUri : String)
    (size chunkSize : Nat) (events : List ChunkEvent) (ub : Nat)
    (hub : ub ≤ size) :
    List.Chain' (fun a b => a ≤ b)
      (ub :: (runChunkLoop sessionUri size chunkSize ub events).ubTrace) ∧
    (∀ x ∈ (runChunkLoop sessionUri size chunkSize ub events).ubTrace,
      x ≤ size) ∧
    (runChunkLoop sessionUri size chunkSize ub events).finalUb ≤ size := by
  induction events generalizing ub with
  | nil =>
    rw [runChunkLoop_nil]
    exact ⟨by simp, by simp, hub⟩
  | cons e es ih =>
    by_cases h : ub < size
    · cases e with
      | pauseSignal =>
        rw [runChunkLoop_pause _ _ _ _ _ h]
        exact ⟨by simp, by simp, hub⟩
      | netError msg =>
        rcases hp : includesPause msg with _ | _
        · obtain ⟨h1, h2, h3⟩ := ih ub hub
          rw [runChunkLoop_netError_retry _ _ _ _ _ _ h hp]
          refine ⟨List.chain'_cons.mpr ⟨le_refl ub, h1⟩, ?_, h3⟩
          intro x hx
          rcases List.mem_cons.mp hx with rfl | hx
          · exact hub
          · exact h2 x hx
        · rw [runChunkLoop_netError_break _ _ _ _ _ _ h hp]
          exact ⟨by simp, by simpa using hub, hub⟩
      | response code =>
        cases hres : uploadChunkResult code with
        | ok u =>
          obtain rfl : u = () := rfl
          have hub' : min (ub + chunkSize) size ≤ size :=
            min_le_right _ _
          have hstep : ub ≤ min (ub + chunkSize) size :=
            le_min (Nat.le_add_right _ _) (le_of_lt h)
          obtain ⟨h1, h2, h3⟩ := ih (min (ub + chunkSize) size) hub'
          rw [runChunkLoop_response_ok _ _ _ _ _ _ h hres]
          refine ⟨List.chain'_cons.mpr ⟨hstep, h1⟩, ?_, h3⟩
          intro x hx
          rcases List.mem_cons.mp hx with rfl | hx
          · exact hub'
          · exact h2 x hx
        | error msg =>
          obtain ⟨h1, h2, h3⟩ := ih ub hub
          rw [runChunkLoop_response_error _ _ _ _ _ _ _ h hres]
          refine ⟨List.chain'_cons.mpr ⟨le_refl ub, h1⟩, ?_, h3⟩
          intro x hx
          rcases List.mem_cons.mp hx with rfl | hx
          · exact hub
          · exact h2 x hx
    · rw [runChunkLoop_done _ _ _ _ _ _ h]
      exact ⟨by simp, by simp, hub⟩

/-- Witness for C1 at a concrete run: a 12-byte file, 5-byte chunks,
starting from offset 1, with an acknowledged chunk, a transient
failure, a transport error and a final success. -/
theorem C1_witness :
    (1 ≤ 12) ∧
    List.Chain' (fun a b => a ≤ b)
      (1 :: (runChunkLoop "s" 12 5 1
        [ChunkEvent.response 308, ChunkEvent.response 500,
         ChunkEvent.netError "boom", ChunkEvent.response 200]).ubTrace) ∧
    (runChunkLoop "s" 12 5 1
        [ChunkEvent.response 308, ChunkEvent.response 500,
         ChunkEvent.netError "boom", ChunkEvent.response 200]).finalUb ≤ 12 :=
  ⟨by decide,
   (C1_uploadedBytes_monotone_bounded "s" 12 5
     [ChunkEvent.response 308, ChunkEvent.response 500,
      ChunkEvent.netError "boom", ChunkEvent.response 200] 1 (by decide)).1,
   (C1_uploadedBytes_monotone_bounded "s" 12 5
     [ChunkEvent.response 308, ChunkEvent.response 500,
      ChunkEvent.netError "boom", ChunkEvent.response 200] 1 (by decide)).2.2⟩

/-- An event the loop reacts to by retrying: a rejected status, or a
transport failure whose message does not signal a pause. -/
def RetryEvent (e : ChunkEvent) : Prop :=
  (∃ code msg, e = ChunkEvent.response code ∧
    uploadChunkResult code = Except.error msg) ∨
  (∃ msg, e = ChunkEvent.netError msg ∧ includesPause msg = false)

/-- A retry event re-sends and changes nothing else. -/
theorem runChunkLoop_retry (s : String) (z c ub : Nat) (e : ChunkEvent)
    (es : List ChunkEvent) (h : ub < z) (he : RetryEvent e) :
    runChunkLoop s z c ub (e :: es) =
      { runChunkLoop s z c ub es with
        ubTrace := ub :: (runChunkLoop s z c ub es).ubTrace,
        sent := mkChunkRequest s ub (min (ub + c) z) z
          :: (runChunkLoop s z c ub es).sent } := by
  rcases he with ⟨code, msg, rfl, herr⟩ | ⟨msg, rfl, hp⟩
  · exact runChunkLoop_response_error _ _ _ _ _ _ _ h herr
  · exact runChunkLoop_netError_retry _ _ _ _ _ _ h hp

/-- `n` consecutive retry events re-send the same byte range `n` times,
acknowledge nothing, and leave the loop exactly where it was. -/
theorem runChunkLoop_retry_replicate (s : String) (z c ub : Nat)
    (e : ChunkEvent) (es : List ChunkEvent) (n : Nat) (h : ub < z)
    (he : RetryEvent e) :
    runChunkLoop s z c ub (List.replicate n e ++ es) =
      { runChunkLoop s z c ub es with
        ubTrace := List.replicate n ub
          ++ (runChunkLoop s z c ub es).ubTrace,
        sent := List.replicate n (mkChunkRequest s ub (min (ub + c) z) z)
          ++ (runChunkLoop s z c ub es).sent } := by
  induction n with
  | zero => simp
  | succ n ih =>
    rw [List.replicate_succ, List.cons_append,
      runChunkLoop_retry _ _ _ _ _ _ h he, ih]
    simp [List.replicate_succ]

/-- C5 counterexample: status 202 is a 2xx success status, yet
`uploadChunk` throws on it — a run receiving 202 for the first chunk of
a 10-byte file acknowledges nothing and the loop retries — so "any 2xx
success status is accepted as successful completion" fails at 202. -/
theorem C5_counterexample :
    (200 ≤ 202 ∧ 202 < 300) ∧
    uploadChunkResult 202 =
      Except.error ("Upload failed with status: " ++ toString 202) ∧
    (runChunkLoop "s" 10 5 0 [ChunkEvent.response 202]).acked = [] ∧
    (runChunkLoop "s" 10 5 0 [ChunkEvent.response 202]).sent =
      [mkChunkRequest "s" 0 5 10] := by
  exact ⟨by decide, rfl, rfl, rfl⟩

/-- C5 (amended): a chunk response advances `uploadedBytes` to
`end = min(start+chunkSize, size)` exactly on statuses 308, 200 and
201; every other status — including every other 2xx — and every
transport failure whose message does not signal a pause is a transient
failure: the engine waits a fixed 2000 ms and re-sends the same byte
range, with no bound on the number of retries, and the failure never
surfaces past the loop (acknowledgements, final offset and final
status are as if the failures had not happened); a pause-signalling
rejection instead exits the loop with status `Paused`. -/
theorem C5_chunk_response_handling (s : String) (z c : Nat)
    (es : List ChunkEvent) (ub code n : Nat) (msg : String) :
    ((uploadChunkResult code).isOk = true ↔
      (code = 308 ∨ code = 200 ∨ code = 201)) ∧
    (ub < z → (code = 308 ∨ code = 200 ∨ code = 201) →
      (runChunkLoop s z c ub
        (ChunkEvent.response code :: es)).ubTrace.head?
        = some (min (ub + c) z)) ∧
    (ub < z → ¬ (code = 308 ∨ code = 200 ∨ code = 201) →
      (runChunkLoop s z c ub
          (List.replicate n (ChunkEvent.response code) ++ es)).acked
        = (runChunkLoop s z c ub es).acked ∧
      (runChunkLoop s z c ub
          (List.replicate n (ChunkEvent.response code) ++ es)).finalUb
        = (runChunkLoop s z c ub es).finalUb ∧
      (runChunkLoop s z c ub
          (List.replicate n (ChunkEvent.response code) ++ es)).finalStatus
        = (runChunkLoop s z c ub es).finalStatus ∧
      (runChunkLoop s z c ub
          (List.replicate n (ChunkEvent.response code) ++ es)).sent
        = List.replicate n (mkChunkRequest s ub (min (ub + c) z) z)
            ++ (runChunkLoop s z c ub es).sent) ∧
    (ub < z → includesPause msg = false →
      (runChunkLoop s z c ub
          (List.replicate n (ChunkEvent.netError msg) ++ es)).acked
        = (runChunkLoop s z c ub es).acked ∧
      (runChunkLoop s z c ub
          (List.replicate n (ChunkEvent.netError msg) ++ es)).sent
        = List.replicate n (mkChunkRequest s ub (min (ub + c) z) z)
            ++ (runChunkLoop s z c ub es).sent) ∧
    (ub < z → includesPause msg = true →
      (runChunkLoop s z c ub
        (ChunkEvent.netError msg :: es)).finalStatus = .paused) ∧
    chunkRetryDelayMs = 2000 := by
  refine ⟨?_, ?_, ?_, ?_, ?_, rfl⟩
  · constructor
    · intro hok
      by_contra hne
      push_neg at hne
      obtain ⟨h1, h2, h3⟩ := hne
      simp [uploadChunkResult, h1, h2, h3, Except.isOk, Except.toBool] at hok
    · rintro (rfl | rfl | rfl) <;> rfl
  · intro h hcode
    have hok : uploadChunkResult code = Except.ok () := by
      rcases hcode with rfl | rfl | rfl <;> rfl
    rw [runChunkLoop_response_ok _ _ _ _ _ _ h hok]
    simp
  · intro h hcode
    push_neg at hcode
    obtain ⟨h1, h2, h3⟩ := hcode
    have herr : RetryEvent (ChunkEvent.response code) :=
      Or.inl ⟨code, "Upload failed with status: " ++ toString code, rfl,
        by simp [uploadChunkResult, h1, h2, h3]⟩
    rw [runChunkLoop_retry_replicate _ _ _ _ _ _ _ h herr]
    exact ⟨rfl, rfl, rfl, rfl⟩
  · intro h hp
    have herr : RetryEvent (ChunkEvent.netError msg) :=
      Or.inr ⟨msg, rfl, hp⟩
    rw [runChunkLoop_retry_replicate _ _ _ _ _ _ _ h herr]
    exact ⟨rfl, rfl⟩
  · intro h hp
    rw [runChunkLoop_netError_break _ _ _ _ _ _ h hp]

/-- Witness for C5 (amended) at a concrete run: two consecutive 500
responses re-send the range [0,5) of a 10-byte file twice and
acknowledge nothing. -/
theorem C5_witness :
    (runChunkLoop "s" 10 5 0
        (List.replicate 2 (ChunkEvent.response 500) ++ [])).acked
      = (runChunkLoop "s" 10 5 0 []).acked ∧
    (runChunkLoop "s" 10 5 0
        (List.replicate 2 (ChunkEvent.response 500) ++ [])).finalUb
      = (runChunkLoop "s" 10 5 0 []).finalUb ∧
    (runChunkLoop "s" 10 5 0
        (List.replicate 2 (ChunkEvent.response 500) ++ [])).finalStatus
      = (runChunkLoop "s" 10 5 0 []).finalStatus ∧
    (runChunkLoop "s" 10 5 0
        (List.replicate 2 (ChunkEvent.response 500) ++ [])).sent
      = List.replicate 2 (mkChunkRequest "s" 0 (min (0 + 5) 10) 10)
          ++ (runChunkLoop "s" 10 5 0 []).sent :=
  (C5_chunk_response_handling "s" 10 5 [] 0 500 2 "x").2.2.1
    (by decide) (by decide)

/-! ## Structure of the byte-range walk (towards C3) -/

/-- Unfolding `chunkRanges` when the loop runs. -/
theorem chunkRanges_cons (c s z : Nat) (hs : s < z) (hc : 0 < c) :
    chunkRanges c s z =
      (s, min (s + c) z) :: chunkRanges c (min (s + c) z) z := by
  rw [chunkRanges, dif_pos ⟨hs, hc⟩]

/-- Unfolding `chunkRanges` when the loop is done (or degenerate). -/
theorem chunkRanges_eq_nil (c s z : Nat) (h : ¬ (s < z ∧ 0 < c)) :
    chunkRanges c s z = [] := by
  rw [chunkRanges, dif_neg h]

/-- The first range starts exactly at the starting offset. -/
theorem chunkRanges_head_fst (c s z : Nat) :
    ∀ p ∈ (chunkRanges c s z).head?, p.1 = s := by
  by_cases h : s < z ∧ 0 < c
  · rw [chunkRanges_cons c s z h.1 h.2]
    simp
  · rw [chunkRanges_eq_nil c s z h]
    simp

/-- Every range is nonempty, clipped at `z`, and determined by its
start. -/
theorem chunkRanges_mem (c s z : Nat) :
    ∀ p ∈ chunkRanges c s z,
      s ≤ p.1 ∧ p.1 < p.2 ∧ p.2 = min (p.1 + c) z ∧ p.2 ≤ z := by
  induction s, z using chunkRanges.induct c with
  | case1 s z h ih =>
    intro p hp
    rw [chunkRanges_cons c s z h.1 h.2] at hp
    rcases List.mem_cons.mp hp with rfl | hp
    · exact ⟨le_refl s, lt_min (by omega) h.1, rfl, min_le_right _ _⟩
    · obtain ⟨ih1, ih2, ih3, ih4⟩ := ih p hp
      exact ⟨le_trans (le_min (Nat.le_add_right _ _) (le_of_lt h.1)) ih1,
        ih2, ih3, ih4⟩
  | case2 s z h =>
    intro p hp
    rw [chunkRanges_eq_nil c s z h] at hp
    simp at hp

/-- Consecutive ranges are contiguous: each starts where the previous
ended. -/
theorem chunkRanges_chain_contiguous (c s z : Nat) :
    List.Chain' (fun p q : Nat × Nat => p.2 = q.1) (chunkRanges c s z) := by
  induction s, z using chunkRanges.induct c with
  | case1 s z h ih =>
    rw [chunkRanges_cons c s z h.1 h.2]
    refine List.chain'_cons'.mpr ⟨?_, ih⟩
    intro q hq
    exact (chunkRanges_head_fst c _ z q hq).symm
  | case2 s z h =>
    rw [chunkRanges_eq_nil c s z h]
    simp

/-- Range starts are strictly increasing. -/
theorem chunkRanges_chain_increasing (c s z : Nat) :
    List.Chain' (fun p q : Nat × Nat => p.1 < q.1) (chunkRanges c s z) := by
  induction s, z using chunkRanges.induct c with
  | case1 s z h ih =>
    rw [chunkRanges_cons c s z h.1 h.2]
    refine List.chain'_cons'.mpr ⟨?_, ih⟩
    intro q hq
    rw [chunkRanges_head_fst c _ z q hq]
    exact lt_min (by omega) h.1
  | case2 s z h =>
    rw [chunkRanges_eq_nil c s z h]
    simp

/-- The ranges tile `[s, z)` exactly: their lengths sum to `z - s`. -/
theorem chunkRanges_sum (c s z : Nat) :
    0 < c → ((chunkRanges c s z).map (fun p => p.2 - p.1)).sum = z - s := by
  induction s, z using chunkRanges.induct c with
  | case1 s z h ih =>
    intro hc
    rw [chunkRanges_cons c s z h.1 h.2]
    simp only [List.map_cons, List.sum_cons, ih hc]
    omega
  | case2 s z h =>
    intro hc
    rw [chunkRanges_eq_nil c s z (by tauto)]
    simp only [List.map_nil, List.sum_nil]
    omega

/-- Every range except possibly the last spans exactly `c` bytes. -/
theorem chunkRanges_dropLast (c s z : Nat) :
    ∀ p ∈ (chunkRanges c s z).dropLast, p.2 - p.1 = c := by
  induction s, z using chunkRanges.induct c with
  | case1 s z h ih =>
    intro p hp
    rw [chunkRanges_cons c s z h.1 h.2] at hp
    by_cases ht : chunkRanges c (min (s + c) z) z = []
    · rw [ht] at hp
      simp at hp
    · rw [List.dropLast_cons_of_ne_nil ht] at hp
      rcases List.mem_cons.mp hp with rfl | hp
      · have h2 : min (s + c) z < z ∧ 0 < c := by
          by_contra hcon
          exact ht (chunkRanges_eq_nil _ _ _ hcon)
        simp only
        omega
      · exact ih p hp
  | case2 s z h =>
    intro p hp
    rw [chunkRanges_eq_nil c s z h] at hp
    simp at hp

/-- The last range (when any) ends exactly at `z`. -/
theorem chunkRanges_getLast (c s z : Nat) :
    ∀ p, (chunkRanges c s z).getLast? = some p → p.2 = z := by
  induction s, z using chunkRanges.induct c with
  | case1 s z h ih =>
    intro p hp
    rw [chunkRanges_cons c s z h.1 h.2] at hp
    cases ht : chunkRanges c (min (s + c) z) z with
    | nil =>
      rw [ht] at hp
      simp only [List.getLast?_singleton, Option.some_inj] at hp
      subst hp
      have h2 : ¬ (min (s + c) z < z ∧ 0 < c) := by
        intro hcon
        rw [chunkRanges_cons c _ z hcon.1 hcon.2] at ht
        exact List.noConfusion ht
      simp only
      omega
    | cons q l =>
      rw [ht, List.getLast?_cons_cons] at hp
      exact ih p (by rw [ht]; exact hp)
  | case2 s z h =>
    intro p hp
    rw [chunkRanges_eq_nil c s z h] at hp
    simp at hp

/-- When a run of the loop reaches the end of the file, its
acknowledged ranges are exactly the byte-range walk `chunkRanges` from
the starting offset. -/
theorem runChunkLoop_acked_complete (s : String) (z c : Nat) (hc : 0 < c)
    (events : List ChunkEvent) :
    ∀ ub, (runChunkLoop s z c ub events).finalUb = z →
      (runChunkLoop s z c ub events).acked = chunkRanges c ub z := by
  induction events with
  | nil =>
    intro ub hf
    rw [runChunkLoop_nil] at hf ⊢
    simp only at hf ⊢
    subst hf
    exact (chunkRanges_eq_nil c ub ub (by omega)).symm
  | cons e es ih =>
    intro ub hf
    by_cases h : ub < z
    · cases e with
      | pauseSignal =>
        rw [runChunkLoop_pause _ _ _ _ _ h] at hf
        simp only at hf
        omega
      | netError msg =>
        rcases hp : includesPause msg with _ | _
        · rw [runChunkLoop_netError_retry _ _ _ _ _ _ h hp] at hf ⊢
          exact ih ub hf
        · rw [runChunkLoop_netError_break _ _ _ _ _ _ h hp] at hf
          simp only at hf
          omega
      | response code =>
        cases hres : uploadChunkResult code with
        | ok u =>
          obtain rfl : u = () := rfl
          rw [runChunkLoop_response_ok _ _ _ _ _ _ h hres] at hf ⊢
          simp only at hf ⊢
          rw [ih (min (ub + c) z) hf, chunkRanges_cons c ub z h hc]
        | error msg =>
          rw [runChunkLoop_response_error _ _ _ _ _ _ _ h hres] at hf ⊢
          exact ih ub hf
    · rw [runChunkLoop_done _ _ _ _ _ _ h] at hf ⊢
      simp only at hf ⊢
      subst hf
      exact (chunkRanges_eq_nil c ub ub (by omega)).symm

/-- Every request the loop sends carries the `Content-Range` header
`bytes start-(end-1)/total` for its own byte range, which is clipped at
the file size. -/
theorem runChunkLoop_sent_contentRange (s : String) (z c : Nat)
    (events : List ChunkEvent) :
    ∀ ub, ∀ req ∈ (runChunkLoop s z c ub events).sent,
      req.contentRange
        = chunkContentRange req.rangeStart req.rangeEnd z ∧
      req.rangeEnd = min (req.rangeStart + c) z := by
  induction events with
  | nil =>
    intro ub req hreq
    rw [runChunkLoop_nil] at hreq
    simp at hreq
  | cons e es ih =>
    intro ub req hreq
    by_cases h : ub < z
    · cases e with
      | pauseSignal =>
        rw [runChunkLoop_pause _ _ _ _ _ h] at hreq
        simp at hreq
      | netError msg =>
        rcases hp : includesPause msg with _ | _
        · rw [runChunkLoop_netError_retry _ _ _ _ _ _ h hp] at hreq
          simp only [List.mem_cons] at hreq
          rcases hreq with rfl | hreq
          · exact ⟨rfl, rfl⟩
          · exact ih ub req hreq
        · rw [runChunkLoop_netError_break _ _ _ _ _ _ h hp] at hreq
          simp only [List.mem_singleton] at hreq
          subst hreq
          exact ⟨rfl, rfl⟩
      | response code =>
        cases hres : uploadChunkResult code with
        | ok u =>
          obtain rfl : u = () := rfl
          rw [runChunkLoop_response_ok _ _ _ _ _ _ h hres] at hreq
          simp only [List.mem_cons] at hreq
          rcases hreq with rfl | hreq
          · exact ⟨rfl, rfl⟩
          · exact ih (min (ub + c) z) req hreq
        | error msg =>
          rw [runChunkLoop_response_error _ _ _ _ _ _ _ h hres] at hreq
          simp only [List.mem_cons] at hreq
          rcases hreq with rfl | hreq
          · exact ⟨rfl, rfl⟩
          · exact ih ub req hreq
    · rw [runChunkLoop_done _ _ _ _ _ _ h] at hreq
      simp at hreq

/-- C3: for every run of the chunk loop that completes the transfer
(`uploadedBytes` reaches `sizeBytes`, upon which `processUpload` marks
the record Completed), the acknowledged chunk byte ranges are [start,
end) ranges that are contiguous, in strictly increasing order, start at
the record's initial `uploadedBytes` offset, are clipped at the file
size and nonempty, span exactly `chunkSizeBytes` except for a possibly
shorter final chunk, end at `sizeBytes`, and tile the remainder of the
file exactly (lengths sum to `sizeBytes - initial offset`, no gaps or
overlaps); and every chunk request sent carries a content-range header
formatted as `bytes start-(end-1)/total`. -/
theorem C3_completed_ranges_tile_file (sessionUri : String)
    (size c ub : Nat) (events : List ChunkEvent) (hc : 0 < c)
    (hdone : (runChunkLoop sessionUri size c ub events).finalUb = size) :
    List.Chain' (fun p q : Nat × Nat => p.2 = q.1)
      (runChunkLoop sessionUri size c ub events).acked ∧
    List.Chain' (fun p q : Nat × Nat => p.1 < q.1)
      (runChunkLoop sessionUri size c ub events).acked ∧
    (∀ p ∈ ((runChunkLoop sessionUri size c ub events).acked).head?,
      p.1 = ub) ∧
    (∀ p ∈ (runChunkLoop sessionUri size c ub events).acked,
      p.1 < p.2 ∧ p.2 = min (p.1 + c) size) ∧
    (∀ p ∈ ((runChunkLoop sessionUri size c ub events).acked).dropLast,
      p.2 - p.1 = c) ∧
    (∀ p, ((runChunkLoop sessionUri size c ub events).acked).getLast?
      = some p → p.2 = size) ∧
    (((runChunkLoop sessionUri size c ub events).acked).map
      (fun p => p.2 - p.1)).sum = size - ub ∧
    (∀ req ∈ (runChunkLoop sessionUri size c ub events).sent,
      req.contentRange
        = chunkContentRange req.rangeStart req.rangeEnd size) := by
  rw [runChunkLoop_acked_complete sessionUri size c hc events ub hdone]
  refine ⟨chunkRanges_chain_contiguous c ub size,
    chunkRanges_chain_increasing c ub size,
    chunkRanges_head_fst c ub size,
    ?_,
    chunkRanges_dropLast c ub size,
    chunkRanges_getLast c ub size,
    chunkRanges_sum c ub size hc,
    ?_⟩
  · intro p hp
    obtain ⟨_, h2, h3, _⟩ := chunkRanges_mem c ub size p hp
    exact ⟨h2, h3⟩
  · intro req hreq
    exact (runChunkLoop_sent_contentRange sessionUri size c events ub
      req hreq).1

/-- Witness for C3 at a concrete completed run: a 12-byte file, 5-byte
chunks from offset 0, acknowledged as 308, 308, 200; the ranges tile
[0, 12). -/
theorem C3_witness :
    (0 < 5) ∧
    (runChunkLoop "s" 12 5 0
      [ChunkEvent.response 308, ChunkEvent.response 308,
       ChunkEvent.response 200]).finalUb = 12 ∧
    List.Chain' (fun p q : Nat × Nat => p.2 = q.1)
      (runChunkLoop "s" 12 5 0
        [ChunkEvent.response 308, ChunkEvent.response 308,
         ChunkEvent.response 200]).acked ∧
    ((runChunkLoop "s" 12 5 0
      [ChunkEvent.response 308, ChunkEvent.response 308,
       ChunkEvent.response 200]).acked.map
        (fun p => p.2 - p.1)).sum = 12 - 0 :=
  ⟨by decide, by decide,
   (C3_completed_ranges_tile_file "s" 12 5 0
     [ChunkEvent.response 308, ChunkEvent.response 308,
      ChunkEvent.response 200] (by decide) (by decide)).1,
   (C3_completed_ranges_tile_file "s" 12 5 0
     [ChunkEvent.response 308, ChunkEvent.response 308,
      ChunkEvent.response 200] (by decide) (by decide)).2.2.2.2.2.2.1⟩

/-- Every request the loop sends starts at or after the offset the loop
was entered with: already-acknowledged ranges below it are never
re-sent. -/
theorem runChunkLoop_sent_ge (s : String) (z c : Nat)
    (events : List ChunkEvent) :
    ∀ ub, ∀ req ∈ (runChunkLoop s z c ub events).sent,
      ub ≤ req.rangeStart := by
  induction events with
  | nil =>
    intro ub req hreq
    rw [runChunkLoop_nil] at hreq
    simp at hreq
  | cons e es ih =>
    intro ub req hreq
    by_cases h : ub < z
    · cases e with
      | pauseSignal =>
        rw [runChunkLoop_pause _ _ _ _ _ h] at hreq
        simp at hreq
      | netError msg =>
        rcases hp : includesPause msg with _ | _
        · rw [runChunkLoop_netError_retry _ _ _ _ _ _ h hp] at hreq
          rcases List.mem_cons.mp hreq with rfl | hreq
          · exact le_refl _
          · exact ih ub req hreq
        · rw [runChunkLoop_netError_break _ _ _ _ _ _ h hp] at hreq
          simp only [List.mem_singleton] at hreq
          subst hreq
          exact le_refl _
      | response code =>
        cases hres : uploadChunkResult code with
        | ok u =>
          obtain rfl : u = () := rfl
          rw [runChunkLoop_response_ok _ _ _ _ _ _ h hres] at hreq
          rcases List.mem_cons.mp hreq with rfl | hreq
          · exact le_refl _
          · exact le_trans (le_min (Nat.le_add_right _ _) (le_of_lt h))
              (ih (min (ub + c) z) req hreq)
        | error msg =>
          rw [runChunkLoop_response_error _ _ _ _ _ _ _ h hres] at hreq
          rcases List.mem_cons.mp hreq with rfl | hreq
          · exact le_refl _
          · exact ih ub req hreq
    · rw [runChunkLoop_done _ _ _ _ _ _ h] at hreq
      simp at hreq

/-- The first acknowledged range of a run starts exactly at the offset
the loop was entered with. -/
theorem runChunkLoop_acked_head (s : String) (z c : Nat)
    (events : List ChunkEvent) :
    ∀ ub p, ((runChunkLoop s z c ub events).acked).head? = some p →
      p.1 = ub := by
  induction events with
  | nil =>
    intro ub p hp
    rw [runChunkLoop_nil] at hp
    simp at hp
  | cons e es ih =>
    intro ub p hp
    by_cases h : ub < z
    · cases e with
      | pauseSignal =>
        rw [runChunkLoop_pause _ _ _ _ _ h] at hp
        simp at hp
      | netError msg =>
        rcases hpe : includesPause msg with _ | _
        · rw [runChunkLoop_netError_retry _ _ _ _ _ _ h hpe] at hp
          exact ih ub p hp
        · rw [runChunkLoop_netError_break _ _ _ _ _ _ h hpe] at hp
          simp at hp
      | response code =>
        cases hres : uploadChunkResult code with
        | ok u =>
          obtain rfl : u = () := rfl
          rw [runChunkLoop_response_ok _ _ _ _ _ _ h hres] at hp
          simp only [List.head?_cons, Option.some_inj] at hp
          subst hp
          rfl
        | error msg =>
          rw [runChunkLoop_response_error _ _ _ _ _ _ _ h hres] at hp
          exact ih ub p hp
    · rw [runChunkLoop_done _ _ _ _ _ _ h] at hp
      simp at hp

/-- A live file handle, as `uploadChunks` needs one for
`file.slice(startByte, endByte)`.  Its contents do not influence the
loop's control flow. -/
structure FileAccessor where
  bytes : List Nat
  deriving DecidableEq, Repr

/-- The chunk requests a `processUpload` run issues through
`uploadChunks` (`background.js` lines 94-135 and 167-205), as a
function of the file argument.  `resumeUpload` re-enters
`processUpload(uploadId, null)` with a `null` file (line 262);
`uploadChunks` then evaluates `file.slice(startByte, endByte)` (line
175) before issuing any request, so with `null` the first iteration
throws a `TypeError` before any chunk request is sent and
`processUpload`'s catch (lines 127-134) marks the record `'error'`:
no byte range is transferred.  With a live file the loop runs as
`runChunkLoop`. -/
def processUploadSent (file : Option FileAccessor) (sessionUri : String)
    (size chunkSize ub : Nat) (events : List ChunkEvent) :
    List ChunkRequest :=
  match file with
  | none => []
  | some _ => (runChunkLoop sessionUri size chunkSize ub events).sent

/-- C4: `resumeUpload(id)` returns `true` exactly when a record with
that id exists with status `Paused` or `Interrupted`, in which case the
record is transitioned to `Uploading` (everything else unchanged) and
the chunk loop is re-entered at the persisted `uploadedBytes` offset:
its first acknowledged range starts exactly there and no request is
ever sent for a byte range starting below it.  For any other id or
status it returns `false` and changes nothing.  Without a fresh file
accessor (the source re-enters `processUpload` with `null`) no chunk
request is issued at all, so a fresh accessor is required for the
resumed transfer to proceed. -/
theorem C4_resume_semantics (ser : List UploadRecord → String)
    (m : Registry) (st : Storage) (id : String) (sessionUri : String)
    (size c : Nat) (events : List ChunkEvent) :
    ((resumeUpload ser m st id).1 = true ↔
      ∃ u, mapGet m id = some u ∧
        (u.status = .paused ∨ u.status = .interrupted)) ∧
    (∀ u, mapGet m id = some u →
      (u.status = .paused ∨ u.status = .interrupted) →
      (resumeUpload ser m st id).2.1 =
        mapSet m id { u with status := .uploading }) ∧
    ((resumeUpload ser m st id).1 = false →
      (resumeUpload ser m st id).2.1 = m ∧
      (resumeUpload ser m st id).2.2 = st) ∧
    (∀ u, mapGet m id = some u →
      (∀ p, ((runChunkLoop sessionUri size c u.uploadedBytes
          events).acked).head? = some p → p.1 = u.uploadedBytes) ∧
      (∀ req ∈ (runChunkLoop sessionUri size c u.uploadedBytes
          events).sent, u.uploadedBytes ≤ req.rangeStart) ∧
      processUploadSent none sessionUri size c u.uploadedBytes events
        = []) := by
  refine ⟨?_, ?_, ?_, ?_⟩
  · unfold resumeUpload
    cases h : mapGet m id with
    | none => simp
    | some u =>
      by_cases hs : u.status = .paused ∨ u.status = .interrupted
      · simp only [hs, if_true]
        exact ⟨fun _ => ⟨u, rfl, hs⟩, fun _ => trivial⟩
      · simp only [hs, if_false]
        constructor
        · intro hfalse
          exact absurd hfalse (by simp)
        · rintro ⟨v, hv, hvs⟩
          obtain rfl : u = v := by simpa using hv
          exact absurd hvs hs
  · intro u hu hs
    unfold resumeUpload
    rw [hu]
    simp [hs]
  · unfold resumeUpload
    cases h : mapGet m id with
    | none => simp
    | some u =>
      by_cases hs : u.status = .paused ∨ u.status = .interrupted
      · simp [hs]
      · simp [hs]
  · intro u _
    exact ⟨runChunkLoop_acked_head sessionUri size c events u.uploadedBytes,
      runChunkLoop_sent_ge sessionUri size c events u.uploadedBytes,
      rfl⟩

/-- Witness for C4 at a concrete registry: resuming the interrupted
record succeeds. -/
theorem C4_witness :
    (resumeUpload serNil [sampleInterrupted] emptyStorage "u2").1 = true :=
  (C4_resume_semantics serNil [sampleInterrupted] emptyStorage "u2"
    "s" 12 5 []).1.mpr ⟨sampleInterrupted, by decide, Or.inr rfl⟩

/-- C2: at startup (`initialize`: load, then recover, before message
handlers are installed), every loaded record whose status is Uploading
or Paused is transitioned to Interrupted and every other record is
left exactly as loaded (same position, all fields unchanged); the
snapshot is re-saved to reflect the recovered set; and an Interrupted
record stays Interrupted: recovery itself leaves it Interrupted and a
pause request on it is rejected without changing anything (only an
explicit resume moves it). -/
theorem C2_startup_recovery (parse : String → Option (List UploadRecord))
    (ser : List UploadRecord → String) (st : Storage) :
    ((recoverInterruptedUploads ser (loadPersistedState parse st) st).1.length
      = (loadPersistedState parse st).length) ∧
    (∀ (i : Nat) (u : UploadRecord),
      (loadPersistedState parse st)[i]? = some u →
      ((recoverInterruptedUploads ser (loadPersistedState parse st) st).1)[i]?
        = some { u with status :=
            if u.status = .uploading ∨ u.status = .paused then
              .interrupted
            else u.status }) ∧
    ((recoverInterruptedUploads ser (loadPersistedState parse st) st).2.uploads
      = some (ser
          (recoverInterruptedUploads ser (loadPersistedState parse st) st).1)) ∧
    recoverStatus .interrupted = .interrupted ∧
    (∀ (m : Registry) (st2 : Storage) (id : String) (u : UploadRecord),
      mapGet m id = some u → u.status = .interrupted →
      pauseUpload ser m st2 id = (false, m, st2)) := by
  refine ⟨?_, ?_, rfl, by decide, ?_⟩
  · exact List.length_map _ _
  · intro i u hu
    have hrec : (recoverInterruptedUploads ser (loadPersistedState parse st)
        st).1
        = (loadPersistedState parse st).map
            (fun v => { v with status := recoverStatus v.status }) := rfl
    rw [hrec, List.getElem?_map, hu]
    rfl
  · intro m st2 id u hu hs
    have hns : ¬ u.status = UploadStatus.uploading := by
      rw [hs]
      decide
    simp [pauseUpload, hu, hns]

/-- Witness for C2: a persisted snapshot holding an uploading, a paused
and an interrupted record reloads as interrupted, interrupted,
interrupted. -/
theorem C2_witness :
    ((recoverInterruptedUploads serNil
      (loadPersistedState
        (fun _ => some [sampleUploading, samplePaused, sampleInterrupted])
        { uploads := some "blob", settings := none })
      { uploads := some "blob", settings := none }).1)[0]?
      = some { sampleUploading with status :=
          if sampleUploading.status = .uploading
              ∨ sampleUploading.status = .paused then
            UploadStatus.interrupted
          else sampleUploading.status } :=
  (C2_startup_recovery
    (fun _ => some [sampleUploading, samplePaused, sampleInterrupted])
    serNil { uploads := some "blob", settings := none }).2.1
    0 sampleUploading (by decide)

/-- C6: `cancelUpload(id)` on a present id returns `true` whatever the
record's status, removes the record so it never appears in any
subsequent `getUploads` result, persists the updated snapshot, and
attempts exactly one session-delete request if and only if the record's
`sessionUri` was set; on an unknown id it returns `false` and changes
nothing. -/
theorem C6_cancel_semantics (ser : List UploadRecord → String)
    (m : Registry) (st : Storage) (id : String) :
    ((cancelUpload ser m st id).1 = true ↔ (mapGet m id).isSome = true) ∧
    (∀ u, mapGet m id = some u →
      (cancelUpload ser m st id).2.1 = mapDelete m id ∧
      mapGet (mapDelete m id) id = none ∧
      (∀ v ∈ mapValues (mapDelete m id), ¬ v.id = id) ∧
      (cancelUpload ser m st id).2.2.1.uploads
        = some (ser (mapValues (mapDelete m id))) ∧
      (cancelUpload ser m st id).2.2.2
        = (if u.sessionUri.isSome then 1 else 0)) ∧
    (mapGet m id = none → cancelUpload ser m st id = (false, m, st, 0)) := by
  refine ⟨?_, ?_, ?_⟩
  · unfold cancelUpload
    cases h : mapGet m id with
    | none => simp
    | some u => simp
  · intro u hu
    unfold cancelUpload
    rw [hu]
    refine ⟨rfl, mapGet_mapDelete_self m id, ?_, rfl, rfl⟩
    intro v hv
    have := List.mem_filter.mp hv
    simpa using this.2
  · intro h
    unfold cancelUpload
    rw [h]

/-- Witness for C6: cancelling the uploading record (which has a
session URI) succeeds and attempts exactly one session delete. -/
theorem C6_witness :
    (cancelUpload serNil [sampleUploading] emptyStorage "u1").1 = true ∧
    (cancelUpload serNil [sampleUploading] emptyStorage "u1").2.2.2
      = (if sampleUploading.sessionUri.isSome then 1 else 0) :=
  ⟨(C6_cancel_semantics serNil [sampleUploading] emptyStorage "u1").1.mpr
    (by decide),
   ((C6_cancel_semantics serNil [sampleUploading] emptyStorage "u1").2.1
    sampleUploading (by decide)).2.2.2.2⟩

/-! ## Reference semantics of `getUploads` (C9)

JavaScript objects are heap references.
`Array.from(this.activeUploads.values())` builds a new array, but its
elements are the very record objects the registry mutates in place, so
this claim needs an explicit heap. -/

/-- The heap of record objects; a reference is an index into it. -/
structure RecHeap where
  store : List UploadRecord
  deriving DecidableEq, Repr

/-- Read a record object through its reference. -/
def derefRec (h : RecHeap) (r : Nat) : Option UploadRecord :=
  h.store[r]?

/-- The `getUploads` message handler (`background.js` lines 326-328):
`sendResponse(Array.from(this.activeUploads.values()))` — a fresh array
holding the registry's record references. -/
def getUploadsRefs (refs : List Nat) : List Nat := refs

/-- The `Map` lookup by id under reference semantics. -/
def findRecRef (h : RecHeap) (refs : List Nat) (id : String) :
    Option Nat :=
  refs.find? (fun r =>
    match derefRec h r with
    | some u => u.id = id
    | none => false)

/-- `pauseUpload` under reference semantics:
`upload.status = 'paused'` (`background.js` line 242) mutates the
record object in the heap; the registry's reference list is
unchanged. -/
def pauseUploadRef (h : RecHeap) (refs : List Nat) (id : String) :
    Bool × RecHeap :=
  match findRecRef h refs id with
  | some r =>
    match derefRec h r with
    | some u =>
      if u.status = .uploading then
        (true, ⟨h.store.set r { u with status := .paused }⟩)
      else (false, h)
    | none => (false, h)
  | none => (false, h)

/-- C9 counterexample: with a single uploading record, `getUploads`
returns the array [ref 0]; a later `pauseUpload` mutates the record in
place; reading element 0 of the previously returned array now yields
the paused record, different from the record at return time — so "later
mutation of a registry record does not change a previously returned
result" is false at this concrete input (the elements are live
references, not copies). -/
theorem C9_counterexample :
    getUploadsRefs [0] = [0] ∧
    (pauseUploadRef ⟨[sampleUploading]⟩ [0] "u1").1 = true ∧
    derefRec (pauseUploadRef ⟨[sampleUploading]⟩ [0] "u1").2 0
      ≠ derefRec ⟨[sampleUploading]⟩ 0 ∧
    derefRec (pauseUploadRef ⟨[sampleUploading]⟩ [0] "u1").2 0
      = some { sampleUploading with status := .paused } := by
  exact ⟨rfl, by decide, by decide, by decide⟩

/-- C9 (amended): `getUploads` responds with a new array — a copy of
the registry's reference collection at call time — whose elements are
live references to the registry's record objects, not copies: whenever
a pause later mutates the record with the requested id in place, the
matching element of the previously returned array dereferences to the
mutated record rather than its value at return time. -/
theorem C9_getUploads_live_references (h : RecHeap) (refs : List Nat)
    (id : String) (r : Nat) (u : UploadRecord)
    (hfind : findRecRef h refs id = some r)
    (hderef : derefRec h r = some u)
    (hstatus : u.status = .uploading) :
    getUploadsRefs refs = refs ∧
    r ∈ getUploadsRefs refs ∧
    (pauseUploadRef h refs id).1 = true ∧
    derefRec (pauseUploadRef h refs id).2 r
      = some { u with status := .paused } := by
  have hmem : r ∈ refs := List.mem_of_find?_eq_some hfind
  have hlt : r < h.store.length := by
    by_contra hge
    have : h.store[r]? = none := List.getElem?_eq_none (by omega)
    rw [derefRec, this] at hderef
    exact Option.noConfusion hderef
  have hpause : pauseUploadRef h refs id =
      (true, ⟨h.store.set r { u with status := .paused }⟩) := by
    simp [pauseUploadRef, hfind, hderef, hstatus]
  refine ⟨rfl, hmem, ?_, ?_⟩
  · rw [hpause]
  · rw [hpause]
    show (h.store.set r _)[r]? = _
    exact List.getElem?_set_eq_of_lt _ hlt

/-- Witness for C9 (amended) at the concrete one-record registry. -/
theorem C9_witness :
    derefRec (pauseUploadRef ⟨[samplePaused, sampleUploading]⟩ [0, 1]
        "u1").2 1
      = some { sampleUploading with status := .paused } :=
  (C9_getUploads_live_references ⟨[samplePaused, sampleUploading]⟩
    [0, 1] "u1" 1 sampleUploading (by decide) (by decide) rfl).2.2.2

end DriveManager
